import Mathlib

/-!
Verification of the mdctl image-upload pipeline (`internal/uploader` and
`internal/cache`).  Go strings are modelled as `List Char`; Go library calls
(`strings.Replace`, `strings.ReplaceAll`, `strings.Contains`, `strings.Trim`,
`strings.TrimSuffix`, `filepath.Ext`, `filepath.Base`) are given executable
Lean translations below.  The filesystem, the content cache and the storage
provider are explicit inputs; provider interactions are recorded in a call
trace so that statements about which network calls happen can be proved.
-/

namespace Mdctl

/-- Go strings, modelled as lists of characters. -/
abbrev Str := List Char

/-! ## Go string-library primitives -/

/-- `strings.Replace(s, old, new, 1)`: replace the first (leftmost)
occurrence of `old` in `s` by `new`; if `old` does not occur, return `s`
unchanged.  An empty `old` matches at the beginning of the string. -/
def replaceFirst : Str → Str → Str → Str
  | [], old, new => if old = [] then new else []
  | c :: rest, old, new =>
    if old.isPrefixOf (c :: rest) then new ++ (c :: rest).drop old.length
    else c :: replaceFirst rest old new

/-- `strings.ReplaceAll(s, "__", "_")`, specialised to the double-underscore
pattern used by `cleanFileName`: scan left to right, replacing every
non-overlapping `"__"` by `"_"`. -/
def replaceAllUU : Str → Str
  | [] => []
  | [c] => [c]
  | c1 :: c2 :: rest =>
    if c1 = '_' ∧ c2 = '_' then '_' :: replaceAllUU rest
    else c1 :: replaceAllUU (c2 :: rest)

/-- `strings.Contains(s, "__")`: does `s` contain two consecutive
underscores? -/
def containsUU : Str → Bool
  | c1 :: c2 :: rest => decide (c1 = '_' ∧ c2 = '_') || containsUU (c2 :: rest)
  | _ => false

/-- `strings.TrimSuffix(s, suffix)`. -/
def trimSuffix (s suffix : Str) : Str :=
  if suffix.isSuffixOf s then s.take (s.length - suffix.length) else s

/-- `strings.Trim(s, "_")`: remove leading and trailing underscores. -/
def trimUnderscores (s : Str) : Str :=
  ((s.dropWhile (· = '_')).reverse.dropWhile (· = '_')).reverse

/-- `filepath.Ext`: the suffix of the last path element starting at its final
dot; empty when the last element has no dot.  Helper: scans the reversed
path, accumulating characters until the first `'.'` or `'/'`. -/
def filepathExtAux : Str → Str → Str
  | _, [] => []
  | acc, c :: rest =>
    if c = '/' then []
    else if c = '.' then c :: acc
    else filepathExtAux (c :: acc) rest

/-- `filepath.Ext(path)`. -/
def filepathExt (s : Str) : Str := filepathExtAux [] s.reverse

/-- `filepath.Base(path)`: the last element of the path, after dropping
trailing slashes; `"."` for the empty path, `"/"` for all-slash paths. -/
def filepathBase (s : Str) : Str :=
  if s = [] then ['.']
  else
    let r := s.reverse.dropWhile (· = '/')
    if r = [] then ['/']
    else (r.takeWhile (· ≠ '/')).reverse

/-- Decimal digits of a natural number (Go's `%d` formatting). -/
def natChars (n : Nat) : Str := (toString n).data

/-- The markdown image-link text `![alt](url)` built by
`fmt.Sprintf("![%s](%s)", alt, url)`. -/
def mkLink (alt url : Str) : Str :=
  "![".data ++ alt ++ "](".data ++ url ++ ")".data

/-- First-match association-list lookup, modelling a Go `map` read (entries
are prepended on update, so the first match is the most recent write). -/
def lookupAssoc {α : Type} (l : List (Str × α)) (k : Str) : Option α :=
  (l.find? (fun x => x.1 == k)).map (fun x => x.2)

/-! ## `cleanFileName` (uploader.go lines 561-580) -/

/-- The character class `[a-zA-Z0-9\-_]` kept by `cleanFileName`. -/
def isAllowedChar (c : Char) : Bool :=
  decide (('a' ≤ c ∧ c ≤ 'z') ∨ ('A' ≤ c ∧ c ≤ 'Z') ∨ ('0' ≤ c ∧ c ≤ '9') ∨
    c = '-' ∨ c = '_')

/-- `regexp.MustCompile(...).ReplaceAllString(name, "_")`: every character
outside the allowed class becomes an underscore. -/
def sanitizeChars (s : Str) : Str :=
  s.map (fun c => if isAllowedChar c then c else '_')

theorem replaceAllUU_length_le : ∀ s : Str, (replaceAllUU s).length ≤ s.length
  | [] => Nat.le_refl _
  | [_] => Nat.le_refl _
  | c1 :: c2 :: rest => by
    unfold replaceAllUU
    split
    · have := replaceAllUU_length_le rest
      simp only [List.length_cons]
      omega
    · have := replaceAllUU_length_le (c2 :: rest)
      simp only [List.length_cons] at *
      omega

theorem replaceAllUU_length_lt :
    ∀ s : Str, containsUU s = true → (replaceAllUU s).length < s.length
  | c1 :: c2 :: rest, h => by
    unfold replaceAllUU
    split
    · have := replaceAllUU_length_le rest
      simp only [List.length_cons]
      omega
    · rename_i hne
      unfold containsUU at h
      have h2 : containsUU (c2 :: rest) = true := by
        simp only [decide_eq_true_eq, Bool.or_eq_true, decide_eq_true_iff] at h
        rcases h with h | h
        · exact absurd h hne
        · exact h
      have := replaceAllUU_length_lt (c2 :: rest) h2
      simp only [List.length_cons] at *
      omega

/-- The `for strings.Contains(name, "__") { name = ReplaceAll(name, "__", "_") }`
loop of `cleanFileName`, with an explicit iteration bound: each pass
strictly shortens the string (`replaceAllUU_length_lt`), so `s.length`
iterations always reach the loop's exit condition. -/
def collapseLoopFuel : Nat → Str → Str
  | 0, s => s
  | fuel + 1, s =>
    if containsUU s = true then collapseLoopFuel fuel (replaceAllUU s) else s

/-- The underscore-collapsing loop of `cleanFileName` (with its always
sufficient iteration bound instantiated). -/
def collapseLoop (s : Str) : Str := collapseLoopFuel s.length s

/-- `cleanFileName` (uploader.go): sanitize the character set, collapse runs
of underscores, trim boundary underscores, and cap the length at 50. -/
def cleanFileName (s : Str) : Str :=
  let n1 := sanitizeChars s
  let n2 := collapseLoop n1
  let n3 := trimUnderscores n2
  if 50 < n3.length then n3.take 50 else n3

/-! ### Properties of the underscore-collapsing loop -/

theorem containsUU_cons {l : Str} (a : Char) (h : containsUU l = true) :
    containsUU (a :: l) = true := by
  match l with
  | [] => simp [containsUU] at h
  | b :: l' =>
    unfold containsUU
    simp only [Bool.or_eq_true]
    exact Or.inr h

theorem containsUU_append_left {t : Str} (u : Str) (h : containsUU t = true) :
    containsUU (u ++ t) = true := by
  induction u with
  | nil => simpa using h
  | cons a u ih => exact containsUU_cons a ih

theorem containsUU_append_right :
    ∀ (t v : Str), containsUU t = true → containsUU (t ++ v) = true
  | c1 :: c2 :: rest, v, h => by
    rw [List.cons_append, List.cons_append]
    unfold containsUU at h ⊢
    simp only [Bool.or_eq_true] at h ⊢
    rcases h with h | h
    · exact Or.inl h
    · refine Or.inr ?_
      have := containsUU_append_right (c2 :: rest) v h
      simpa using this
  | [], _, h => by simp [containsUU] at h
  | [c], _, h => by simp [containsUU] at h

/-- `containsUU` is monotone under taking contiguous substrings: a string
without a double underscore has no substring with one. -/
theorem containsUU_eq_false_mono {s t : Str} (hinf : t <:+: s)
    (h : containsUU s = false) : containsUU t = false := by
  obtain ⟨u, v, rfl⟩ := hinf
  by_contra hne
  have ht : containsUU t = true := by simpa using hne
  have : containsUU (u ++ (t ++ v)) = true :=
    containsUU_append_left u (containsUU_append_right t v ht)
  rw [← List.append_assoc] at this
  rw [this] at h
  simp at h

theorem collapseLoopFuel_noUU :
    ∀ (n : Nat) (s : Str), s.length ≤ n →
      containsUU (collapseLoopFuel n s) = false
  | 0, s, h => by
    have hs : s = [] := List.eq_nil_of_length_eq_zero (Nat.le_zero.mp h)
    subst hs
    rfl
  | n + 1, s, h => by
    unfold collapseLoopFuel
    split
    · rename_i hc
      refine collapseLoopFuel_noUU n (replaceAllUU s) ?_
      have := replaceAllUU_length_lt s hc
      omega
    · rename_i hc
      simpa using hc

theorem collapseLoop_noUU (s : Str) : containsUU (collapseLoop s) = false :=
  collapseLoopFuel_noUU s.length s (Nat.le_refl _)

theorem mem_replaceAllUU :
    ∀ {c : Char} (s : Str), c ∈ replaceAllUU s → c ∈ s ∨ c = '_'
  | _, [], h => by simp [replaceAllUU] at h
  | _, [a], h => by
    simp only [replaceAllUU] at h
    exact Or.inl h
  | c, c1 :: c2 :: rest, h => by
    unfold replaceAllUU at h
    split at h
    · rcases List.mem_cons.mp h with h | h
      · exact Or.inr h
      · rcases mem_replaceAllUU rest h with h | h
        · exact Or.inl (by simp [h])
        · exact Or.inr h
    · rcases List.mem_cons.mp h with h | h
      · exact Or.inl (by simp [h])
      · rcases mem_replaceAllUU (c2 :: rest) h with h | h
        · exact Or.inl (List.mem_cons_of_mem _ h)
        · exact Or.inr h

theorem mem_collapseLoopFuel :
    ∀ (n : Nat) {c : Char} (s : Str), c ∈ collapseLoopFuel n s →
      c ∈ s ∨ c = '_'
  | 0, _, _, h => Or.inl h
  | n + 1, c, s, h => by
    unfold collapseLoopFuel at h
    split at h
    · rcases mem_collapseLoopFuel n (replaceAllUU s) h with h | h
      · exact mem_replaceAllUU s h
      · exact Or.inr h
    · exact Or.inl h

theorem mem_collapseLoop {c : Char} (s : Str) (h : c ∈ collapseLoop s) :
    c ∈ s ∨ c = '_' :=
  mem_collapseLoopFuel s.length s h

/-! ### Properties of `trimUnderscores` -/

/-- Dropping a trailing run (via reverse) yields a prefix of the original. -/
theorem revDropRev_isPre (p : Char → Bool) (l : Str) :
    ((l.reverse.dropWhile p).reverse) <+: l := by
  obtain ⟨w, hw⟩ := List.dropWhile_suffix (l := l.reverse) p
  refine ⟨w.reverse, ?_⟩
  have := congrArg List.reverse hw
  simpa [List.reverse_append] using this

theorem head?_dropWhile_ne {p : Char → Bool} :
    ∀ (l : Str) (c : Char), (l.dropWhile p).head? = some c → p c = false
  | [], c, h => by simp [List.dropWhile] at h
  | a :: l, c, h => by
    rw [List.dropWhile_cons] at h
    split at h
    · exact head?_dropWhile_ne l c h
    · rename_i hp
      simp only [List.head?_cons, Option.some.injEq] at h
      subst h
      simpa using hp

theorem head?_of_isPre {l₁ l₂ : Str} {c : Char} (h : l₁ <+: l₂)
    (hc : l₁.head? = some c) : l₂.head? = some c := by
  obtain ⟨t, rfl⟩ := h
  cases l₁ with
  | nil => simp at hc
  | cons a l => simpa using hc

theorem trimUnderscores_isInfix (s : Str) : trimUnderscores s <:+: s := by
  unfold trimUnderscores
  exact (revDropRev_isPre _ _).isInfix.trans (List.dropWhile_suffix _).isInfix

theorem trimUnderscores_head {s : Str} {c : Char}
    (h : (trimUnderscores s).head? = some c) : c ≠ '_' := by
  unfold trimUnderscores at h
  have h2 : (s.dropWhile (· = '_')).head? = some c :=
    head?_of_isPre (revDropRev_isPre _ _) h
  have := head?_dropWhile_ne (p := (· = '_')) _ c h2
  simpa using this

/-! ### The `cleanFileName` invariant -/

theorem mem_sanitizeChars {c : Char} (s : Str) (h : c ∈ sanitizeChars s) :
    isAllowedChar c = true := by
  unfold sanitizeChars at h
  obtain ⟨a, _, ha⟩ := List.mem_map.mp h
  by_cases hall : isAllowedChar a = true
  · rw [if_pos hall] at ha
    exact ha ▸ hall
  · rw [if_neg hall] at ha
    subst ha
    decide

/-- C10: `cleanFileName` returns a string of ASCII letters, digits, hyphens
and underscores, with no double underscore, not starting with an underscore,
of length at most 50. -/
theorem cleanFileName_spec (s : Str) :
    (∀ c ∈ cleanFileName s, isAllowedChar c = true) ∧
    containsUU (cleanFileName s) = false ∧
    (cleanFileName s).head? ≠ some '_' ∧
    (cleanFileName s).length ≤ 50 := by
  have hmem3 : ∀ c ∈ trimUnderscores (collapseLoop (sanitizeChars s)),
      isAllowedChar c = true := by
    intro c hc
    have hc2 : c ∈ collapseLoop (sanitizeChars s) :=
      (trimUnderscores_isInfix _).sublist.mem hc
    rcases mem_collapseLoop (sanitizeChars s) hc2 with h | h
    · exact mem_sanitizeChars s h
    · subst h; decide
  have hUU3 : containsUU (trimUnderscores (collapseLoop (sanitizeChars s))) = false :=
    containsUU_eq_false_mono (trimUnderscores_isInfix _) (collapseLoop_noUU _)
  have hhead3 : (trimUnderscores (collapseLoop (sanitizeChars s))).head? ≠ some '_' := by
    intro h
    exact trimUnderscores_head h rfl
  simp only [cleanFileName]
  split
  · refine ⟨?_, ?_, ?_, ?_⟩
    · intro c hc
      exact hmem3 c (List.take_subset 50 _ hc)
    · exact containsUU_eq_false_mono ( List.take_prefix 50 _).isInfix hUU3
    · intro h
      exact hhead3 (head?_of_isPre ( List.take_prefix 50 _) h)
    · simp [List.length_take]
  · rename_i hlen
    exact ⟨hmem3, hUU3, hhead3, by omega⟩

/-! ## Uploader data model (uploader.go) -/

/-- The configuration fields read by the upload pipeline core
(`UploaderConfig`); the remaining fields only select/configure the storage
backend and are not part of the verified core. -/
structure UploaderConfig where
  dryRun : Bool
  forceUpload : Bool
  conflictPolicy : Str
deriving DecidableEq

/-- `New` (uploader.go lines 107-110): an empty conflict policy defaults to
`rename`. -/
def normalizeConflictPolicy (p : Str) : Str :=
  if p = [] then "rename".data else p

/-- `uploadTask` (uploader.go).  `originalURL`/`altText` exist in the Go
struct but are never assigned, so they stay at their zero value. -/
structure UploadTask where
  localPath : Str
  remotePath : Str
  filename : Str
  originalURL : Str := []
  altText : Str := []
deriving DecidableEq

/-- `uploadResult` (uploader.go).  `err = some msg` models a non-nil error. -/
structure UploadResult where
  task : UploadTask
  url : Str
  uploaded : Bool
  err : Option Str
deriving DecidableEq

/-- The storage backend (`storage.Provider`), as an oracle.  Go methods
return `(value, error)` pairs where the value is its zero value (`false` /
`""`) whenever the error is non-nil, which `Except` captures. -/
structure Provider where
  objectExists : Str → Except Str Bool
  compareHash : Str → Str → Except Str Bool
  getPublicURL : Str → Str
  upload : Str → Str → List (Str × Str) → Except Str Str

/-- One provider interaction, recorded so theorems can speak about which
calls a code path performs. -/
inductive PCall where
  | objectExists : Str → PCall
  | compareHash : Str → Str → PCall
  | getPublicURL : Str → PCall
  | upload : Str → Str → PCall
deriving DecidableEq

/-- The calls the spec counts as network calls (`Upload`, `ObjectExists`,
`CompareHash`; `GetPublicURL` is a pure URL computation). -/
def isNetworkCall : PCall → Bool
  | PCall.getPublicURL _ => false
  | _ => true

/-- The filesystem as a map from path to the md5 content hash of the file;
`none` means the file does not exist (`os.Stat`/`os.Open` fail).
`calculateFileHash` errors exactly on missing files. -/
def calculateFileHash (fs : Str → Option Str) (path : Str) : Except Str Str :=
  match fs path with
  | some h => Except.ok h
  | none => Except.error "no such file".data

/-- The `ConflictPolicyVersion` probe loop (uploader.go lines 432-444):
try `base_v1`, `base_v2`, ... and take the first path whose `ObjectExists`
is false (a probe *error* is discarded — `exists, _ :=` — and the zero
value `false` makes that path be taken).  The Go loop is unbounded; `fuel`
bounds the model, `none` standing for divergence. -/
def findVersionPath (p : Provider) (base ext : Str) :
    Nat → Nat → Option (Str × List PCall)
  | 0, _ => none
  | fuel + 1, v =>
    let newPath := base ++ "_v".data ++ natChars v ++ ext
    match p.objectExists newPath with
    | Except.ok true =>
      (findVersionPath p base ext fuel (v + 1)).map
        (fun r => (r.1, PCall.objectExists newPath :: r.2))
    | _ => some (newPath, [PCall.objectExists newPath])

/-- The tail of `uploadWorker`: upload the file with its metadata and build
the success/failure result (uploader.go lines 450-471). -/
def uploadAt (p : Provider) (task : UploadTask) (hash : Str) (now : Nat)
    (rp : Str) : UploadResult × List PCall :=
  let metadata := [("Hash".data, hash), ("Original".data, task.filename),
    ("UploadTime".data, natChars now)]
  match p.upload task.localPath rp metadata with
  | Except.error e =>
    ({ task := task, url := [], uploaded := false,
       err := some ("failed to upload file: ".data ++ e) },
     [PCall.upload task.localPath rp])
  | Except.ok url =>
    ({ task := task, url := url, uploaded := true, err := none },
     [PCall.upload task.localPath rp])

/-- The body of `uploadWorker` for a single task (uploader.go lines
378-471), returning the emitted result together with the trace of provider
calls.  `now` models `time.Now()` (UnixNano); `fuel` bounds the version
probe loop (`none` = the Go loop diverges). -/
def uploadWorkerStep (cfg : UploaderConfig) (p : Provider)
    (fs : Str → Option Str) (now fuel : Nat) (task : UploadTask) :
    Option (UploadResult × List PCall) :=
  match calculateFileHash fs task.localPath with
  | Except.error e =>
    some ({ task := task, url := [], uploaded := false,
            err := some ("failed to calculate hash: ".data ++ e) }, [])
  | Except.ok hash =>
    if cfg.dryRun then
      some ({ task := task, url := p.getPublicURL task.remotePath,
              uploaded := false, err := none },
        [PCall.getPublicURL task.remotePath])
    else
      match p.objectExists task.remotePath with
      | Except.error e =>
        some ({ task := task, url := [], uploaded := false,
                err := some ("failed to check if object exists: ".data ++ e) },
          [PCall.objectExists task.remotePath])
      | Except.ok ex =>
        let c0 := [PCall.objectExists task.remotePath]
        if ex ∧ ¬cfg.forceUpload then
          match p.compareHash task.remotePath hash with
          | Except.ok true =>
            -- same content already remote: skip, return the existing URL
            some ({ task := task, url := p.getPublicURL task.remotePath,
                    uploaded := false, err := none },
              c0 ++ [PCall.compareHash task.remotePath hash,
                     PCall.getPublicURL task.remotePath])
          | _ =>
            -- differing hash, or a CompareHash error (`err == nil &&
            -- hashMatches` is false either way): resolve the conflict
            let cs := c0 ++ [PCall.compareHash task.remotePath hash]
            let ext := filepathExt task.remotePath
            let base := trimSuffix task.remotePath ext
            if cfg.conflictPolicy = "rename".data then
              let rp := base ++ "_".data ++ natChars now ++ ext
              let ru := uploadAt p task hash now rp
              some (ru.1, cs ++ ru.2)
            else if cfg.conflictPolicy = "version".data then
              match findVersionPath p base ext fuel 1 with
              | none => none
              | some rv =>
                let ru := uploadAt p task hash now rv.1
                some (ru.1, cs ++ rv.2 ++ ru.2)
            else
              -- `overwrite`, and any unknown policy value: keep the path
              let ru := uploadAt p task hash now task.remotePath
              some (ru.1, cs ++ ru.2)
        else
          let ru := uploadAt p task hash now task.remotePath
          some (ru.1, c0 ++ ru.2)

/-! ## Scan phase (`processFile`, uploader.go lines 264-372) -/

/-- One regex match of ``!\[([^\]]*)\]\(([^)]+)\)``: the alt text and the
link target.  The scan model takes the match list extracted by
`FindAllStringSubmatch` as input. -/
structure ImgMatch where
  alt : Str
  url : Str
deriving DecidableEq

/-- `pendingReplace` (uploader.go). -/
structure PendingReplace where
  localPath : Str
  oldLink : Str
  imgAlt : Str
  remotePath : Str
deriving DecidableEq

/-- `cache.CacheItem` (cache.go). -/
structure CacheItem where
  localPath : Str := []
  remotePath : Str := []
  url : Str := []
  hash : Str := []
  uploadTime : Nat := 0
deriving DecidableEq

/-- The accumulator of `processFile`'s match loop. -/
structure ScanState where
  newContent : Str
  contentChanged : Bool
  pending : List PendingReplace
  tasks : List UploadTask
  skipped : Nat
deriving DecidableEq

/-- The already-remote test (uploader.go line 293). -/
def isRemoteURL (u : Str) : Bool :=
  ("http://".data).isPrefixOf u || ("https://".data).isPrefixOf u ||
    ("//".data).isPrefixOf u

/-- The body of `processFile`'s loop for one image reference (uploader.go
lines 288-361).  `resolve` models the `filepath.IsAbs`/`Dir`/`Join`
resolution of the raw link target against the document's directory; the
filesystem `fs` maps an image path to its md5 hash (`os.Stat` and
`calculateFileHash` both fail exactly on missing paths). -/
def scanStep (cfg : UploaderConfig) (resolve : Str → Str → Str)
    (fs : Str → Option Str) (cache : Str → Option CacheItem)
    (filePath : Str) (st : ScanState) (m : ImgMatch) : ScanState :=
  if isRemoteURL m.url then st
  else
    let imgPath := resolve filePath m.url
    match fs imgPath with
    | none => st
    | some hash =>
      match (if cfg.forceUpload then none else cache imgPath) with
      | some item =>
        -- cache hit: rewrite the link to the cached URL, count a skip
        let oldLink := mkLink m.alt m.url
        let newLink := mkLink m.alt item.url
        if oldLink ≠ newLink then
          { st with newContent := replaceFirst st.newContent oldLink newLink,
                    contentChanged := true, skipped := st.skipped + 1 }
        else
          { st with skipped := st.skipped + 1 }
      | none =>
        -- register a pending replacement and enqueue an upload task
        let ext := filepathExt imgPath
        let filename := filepathBase imgPath
        let cleaned := cleanFileName (trimSuffix filename ext)
        let remotePath :=
          "images/".data ++ cleaned ++ "_".data ++ hash.take 8 ++ ext
        let oldLink := mkLink m.alt m.url
        let pr : PendingReplace :=
          { localPath := imgPath, oldLink := oldLink, imgAlt := m.alt,
            remotePath := remotePath }
        let tk : UploadTask :=
          { localPath := imgPath, remotePath := remotePath,
            filename := filename }
        { st with pending := st.pending ++ [pr], tasks := st.tasks ++ [tk] }

/-- `processFile`'s whole match loop over a document. -/
def processFileModel (cfg : UploaderConfig) (resolve : Str → Str → Str)
    (fs : Str → Option Str) (cache : Str → Option CacheItem)
    (filePath content : Str) (ms : List ImgMatch) : ScanState :=
  ms.foldl (scanStep cfg resolve fs cache filePath)
    { newContent := content, contentChanged := false, pending := [],
      tasks := [], skipped := 0 }

/-! ## Result aggregation and rewrite (`processResults`, lines 475-542) -/

/-- The counters of `FileStats` that the pipeline core mutates. -/
structure FileStats where
  uploadedImages : Nat := 0
  skippedImages : Nat := 0
  failedImages : Nat := 0
  changedFiles : Nat := 0
deriving DecidableEq

/-- The aggregation loop's state: statistics, the `uploadedURLs` map
(prepended entries, first-match lookup = Go map overwrite), and the items
passed to `cache.AddItem`. -/
structure AggState where
  stats : FileStats
  uploadedURLs : List (Str × Str)
  cacheAdds : List CacheItem
deriving DecidableEq

/-- One iteration of `processResults`'s result loop (lines 478-499). -/
def processResultStep (fs : Str → Option Str) (acc : AggState)
    (r : UploadResult) : AggState :=
  match r.err with
  | some _ =>
    { acc with stats :=
        { acc.stats with failedImages := acc.stats.failedImages + 1 } }
  | none =>
    let urls := (r.task.localPath, r.url) :: acc.uploadedURLs
    if r.uploaded then
      -- `hash, _ := calculateFileHash(...)`: the error is discarded and the
      -- zero value "" is cached when hashing fails
      let hash := (fs r.task.localPath).getD []
      let ci : CacheItem :=
        { localPath := r.task.localPath, remotePath := r.task.remotePath,
          url := r.url, hash := hash }
      { stats :=
          { acc.stats with uploadedImages := acc.stats.uploadedImages + 1 },
        uploadedURLs := urls,
        cacheAdds := acc.cacheAdds ++ [ci] }
    else
      { acc with
          stats :=
            { acc.stats with skippedImages := acc.stats.skippedImages + 1 },
          uploadedURLs := urls }

/-- The whole result loop. -/
def aggregateResults (fs : Str → Option Str) (results : List UploadResult) :
    AggState :=
  results.foldl (processResultStep fs)
    { stats := {}, uploadedURLs := [], cacheAdds := [] }

/-- The substitution loop for one document (lines 517-531): apply each
pending replacement whose local path has a resolved URL, tracking whether
any substitution changed the content. -/
def applyReplaces (urls : List (Str × Str)) (content : Str)
    (replaces : List PendingReplace) : Str × Bool :=
  replaces.foldl (fun st r =>
    match lookupAssoc urls r.localPath with
    | none => st
    | some url =>
      let newLink := mkLink r.imgAlt url
      let nc := replaceFirst st.1 r.oldLink newLink
      if nc = st.1 then (nc, st.2) else (nc, true)) (content, false)

/-- The rewrite loop over the per-document pending-replacement groups
(lines 505-541): read the document, substitute, and write it back only if
some substitution changed the content and this is not a dry run.  Returns
the performed writes and the `ChangedFiles` increment.  A read error or a
write error (`writeErr`) skips the document (logged in Go). -/
def rewritePhase (dryRun : Bool) (writeErr : Str → Option Str)
    (docFS : Str → Option Str) (urls : List (Str × Str)) :
    List (Str × List PendingReplace) → List (Str × Str) × Nat
  | [] => ([], 0)
  | (path, replaces) :: rest =>
    if replaces = [] then rewritePhase dryRun writeErr docFS urls rest
    else
      match docFS path with
      | none => rewritePhase dryRun writeErr docFS urls rest
      | some content =>
        let nc := applyReplaces urls content replaces
        if nc.2 ∧ ¬dryRun then
          match writeErr path with
          | some _ => rewritePhase dryRun writeErr docFS urls rest
          | none =>
            ((path, nc.1) ::
                (rewritePhase dryRun writeErr docFS urls rest).1,
              (rewritePhase dryRun writeErr docFS urls rest).2 + 1)
        else rewritePhase dryRun writeErr docFS urls rest

/-! ## A whole run (`Process`, uploader.go lines 197-244) -/

/-- The externally visible write effects and final statistics of a run. -/
structure RunOut where
  scanWrites : List (Str × Str)
  rewriteWrites : List (Str × Str)
  stats : FileStats
deriving DecidableEq

/-- A whole pipeline run over a list of documents (path, initial content,
extracted image matches): scan every document (performing the cache-hit
writes of `processFile`), run every enqueued task through the worker
(workers all drain before the result channel closes), aggregate the
results, then rewrite.  The rewrite phase re-reads documents from disk, so
it sees the scan-phase writes.  `none` models a diverging version probe. -/
def runModel (cfg : UploaderConfig) (resolve : Str → Str → Str)
    (fs : Str → Option Str) (cache : Str → Option CacheItem) (p : Provider)
    (now fuel : Nat) (writeErr : Str → Option Str)
    (docs : List (Str × Str × List ImgMatch)) : Option RunOut :=
  let scans := docs.map
    (fun d => (d.1, processFileModel cfg resolve fs cache d.1 d.2.1 d.2.2))
  let scanWrites := scans.filterMap (fun s =>
    if s.2.contentChanged ∧ ¬cfg.dryRun ∧ writeErr s.1 = none
    then some (s.1, s.2.newContent) else none)
  let tasks := (scans.map (fun s => s.2.tasks)).flatten
  match tasks.mapM (uploadWorkerStep cfg p fs now fuel) with
  | none => none
  | some pairs =>
    let results := pairs.map (fun pr => pr.1)
    let agg := aggregateResults fs results
    let docFS : Str → Option Str := fun q =>
      match lookupAssoc scanWrites q with
      | some c => some c
      | none => lookupAssoc (docs.map (fun d => (d.1, d.2.1))) q
    let pendingFiles := scans.map (fun s => (s.1, s.2.pending))
    let rw := rewritePhase cfg.dryRun writeErr docFS agg.uploadedURLs
      pendingFiles
    some { scanWrites := scanWrites,
           rewriteWrites := rw.1,
           stats := { agg.stats with
             skippedImages := agg.stats.skippedImages +
               (scans.map (fun s => s.2.skipped)).sum,
             changedFiles := scanWrites.length + rw.2 } }

/-- How many times a run writes the document at `path` back to disk. -/
def writeCount (o : Option RunOut) (path : Str) : Nat :=
  match o with
  | none => 0
  | some out =>
    (out.scanWrites.map Prod.fst).count path +
      (out.rewriteWrites.map Prod.fst).count path

/-! ## `cache.Load` (cache.go lines 70-98) -/

/-- The filesystem effects `Load` depends on: the `MkdirAll` outcome, the
cache file (absent / unreadable / readable with contents), the JSON
unmarshal outcome for given contents, and the outcome of the
`saveWithoutLock` performed when the file is absent. -/
structure CacheLoadEnv where
  mkdirErr : Option Str
  cacheFile : Option (Except Str Str)
  unmarshal : Str → Option (List (Str × CacheItem))
  saveErr : Option Str

/-- `cache.Load`: returns the new `Items` map and the returned error
(`none` = nil).  An unparseable cache file resets `Items` to empty and
returns nil. -/
def cacheLoad (env : CacheLoadEnv) (items : List (Str × CacheItem)) :
    List (Str × CacheItem) × Option Str :=
  match env.mkdirErr with
  | some e => (items, some ("failed to create cache directory: ".data ++ e))
  | none =>
    match env.cacheFile with
    | none => ([], env.saveErr)
    | some (Except.error e) =>
      (items, some ("failed to read cache file: ".data ++ e))
    | some (Except.ok contents) =>
      match env.unmarshal contents with
      | none => ([], none)
      | some parsed => (parsed, none)

/-! ## Concrete demonstration inputs -/

/-- A well-behaved storage backend for concrete runs. -/
def demoProvider : Provider :=
  { objectExists := fun _ => Except.ok false
    compareHash := fun _ _ => Except.ok false
    getPublicURL := fun q => "https://cdn/".data ++ q
    upload := fun _ rp _ => Except.ok ("https://cdn/".data ++ rp) }

/-- A filesystem with two image files. -/
def demoFs : Str → Option Str := fun q =>
  if q = "p1".data then some "aaaaaaaaaa".data
  else if q = "p2".data then some "bbbbbbbbbb".data else none

/-- A concrete upload task for the image `p1`. -/
def demoTask : UploadTask :=
  { localPath := "p1".data, remotePath := "images/p1_aaaaaaaa.png".data,
    filename := "p1.png".data }

/-! ## C9: `cache.Load` on a corrupted cache file -/

/-- C9: when the cache directory is fine, the cache file exists and is
readable, but its contents fail to unmarshal, `Load` resets `Items` to the
empty map and returns nil — a corrupted cache never aborts the run. -/
theorem cacheLoad_corrupt_resets (env : CacheLoadEnv)
    (items : List (Str × CacheItem)) (contents : Str)
    (hmk : env.mkdirErr = none)
    (hfile : env.cacheFile = some (Except.ok contents))
    (hparse : env.unmarshal contents = none) :
    cacheLoad env items = ([], none) := by
  unfold cacheLoad
  rw [hmk, hfile]
  simp [hparse]

/-- Witness for C9 at a concrete corrupted cache file. -/
theorem cacheLoad_corrupt_resets_witness :
    cacheLoad ⟨none, some (Except.ok "not-json".data), fun _ => none, none⟩
      [("x".data, {})] = ([], none) :=
  cacheLoad_corrupt_resets _ _ "not-json".data rfl rfl rfl

/-! ## C3: dry-run purity -/

/-- C3: with `dryRun = true` the worker performs no network call (`Upload`,
`ObjectExists`, `CompareHash` never appear in the trace), always emits a
result with `uploaded = false`, and — whenever the task's file is hashable —
that result carries the provider's prospective public URL for the task's
remote path and no error. -/
theorem dryRun_no_network (cfg : UploaderConfig) (p : Provider)
    (fs : Str → Option Str) (now fuel : Nat) (task : UploadTask)
    (hdry : cfg.dryRun = true) :
    (∀ rt, uploadWorkerStep cfg p fs now fuel task = some rt →
      (∀ c ∈ rt.2, isNetworkCall c = false) ∧ rt.1.uploaded = false) ∧
    (uploadWorkerStep cfg p fs now fuel task).isSome = true ∧
    (∀ h, fs task.localPath = some h →
      uploadWorkerStep cfg p fs now fuel task =
        some ({ task := task, url := p.getPublicURL task.remotePath,
                uploaded := false, err := none },
          [PCall.getPublicURL task.remotePath])) := by
  cases hfs : fs task.localPath with
  | none =>
    simp only [uploadWorkerStep, calculateFileHash, hfs]
    refine ⟨?_, rfl, ?_⟩
    · intro rt hrt
      cases hrt
      exact ⟨by intro c hc; simp at hc, rfl⟩
    · intro h hh
      exact Option.noConfusion hh
  | some hsh =>
    simp only [uploadWorkerStep, calculateFileHash, hfs, hdry, if_true]
    refine ⟨?_, rfl, ?_⟩
    · intro rt hrt
      cases hrt
      refine ⟨?_, rfl⟩
      intro c hc
      simp only [List.mem_singleton] at hc
      subst hc
      rfl
    · intro h hh
      trivial

/-- Witness for C3: a concrete dry run emits the prospective URL and makes
no network call. -/
theorem dryRun_no_network_witness :
    uploadWorkerStep ⟨true, false, "rename".data⟩ demoProvider demoFs 5 9
        demoTask =
      some ({ task := demoTask,
              url := demoProvider.getPublicURL demoTask.remotePath,
              uploaded := false, err := none },
        [PCall.getPublicURL demoTask.remotePath]) :=
  (dryRun_no_network ⟨true, false, "rename".data⟩ demoProvider demoFs 5 9
    demoTask rfl).2.2 "aaaaaaaaaa".data rfl

/-! ## The rename conflict branch (C2, C8) -/

theorem length_trimSuffix_add (s e : Str) :
    s.length ≤ (trimSuffix s e).length + e.length := by
  unfold trimSuffix
  split
  · rename_i hsuf
    have hs : e <:+ s := List.isSuffixOf_iff_suffix.mp hsuf
    have hle := hs.length_le
    rw [List.length_take]
    omega
  · omega

/-- The timestamp-renamed path is always distinct from the original remote
path (it is strictly longer: the base, one underscore, the timestamp digits
and the extension). -/
theorem renamedPath_ne (rp : Str) (now : Nat) :
    trimSuffix rp (filepathExt rp) ++ "_".data ++ natChars now ++
      filepathExt rp ≠ rp := by
  intro h
  have hlen := congrArg List.length h
  rw [List.length_append, List.length_append, List.length_append] at hlen
  have h1 : ("_".data : Str).length = 1 := rfl
  rw [h1] at hlen
  have h2 := length_trimSuffix_add rp (filepathExt rp)
  omega

/-- Shared unfolding: with the remote object present, `force` off, and the
hash comparison not an exact match (mismatch or error), the `rename` policy
uploads to the timestamp-suffixed path. -/
theorem uploadWorkerStep_rename (cfg : UploaderConfig) (p : Provider)
    (fs : Str → Option Str) (now fuel : Nat) (task : UploadTask) (hash : Str)
    (hdry : cfg.dryRun = false) (hforce : cfg.forceUpload = false)
    (hpol : cfg.conflictPolicy = "rename".data)
    (hh : fs task.localPath = some hash)
    (hex : p.objectExists task.remotePath = Except.ok true)
    (hcmp : p.compareHash task.remotePath hash ≠ Except.ok true) :
    uploadWorkerStep cfg p fs now fuel task =
      some ((uploadAt p task hash now (trimSuffix task.remotePath
          (filepathExt task.remotePath) ++ "_".data ++ natChars now ++
          filepathExt task.remotePath)).1,
        [PCall.objectExists task.remotePath,
         PCall.compareHash task.remotePath hash] ++
        (uploadAt p task hash now (trimSuffix task.remotePath
          (filepathExt task.remotePath) ++ "_".data ++ natChars now ++
          filepathExt task.remotePath)).2) := by
  simp only [uploadWorkerStep, calculateFileHash, hh, hdry, hex, hforce,
    hpol, Bool.false_eq_true, if_false, not_false_iff, and_true, if_true]
  cases hc : p.compareHash task.remotePath hash with
  | error e => simp
  | ok b =>
    cases b with
    | true => exact absurd hc hcmp
    | false => simp

/-- C2 (amended): when the remote object exists and `CompareHash` returns
an error (with `dryRun=false`, `force=false`), the worker does *not* emit a
failed result; it treats the error like a hash mismatch, resolves the name
conflict per the (default `rename`) policy and proceeds to call `Upload`,
the emitted result reflecting the upload's own outcome.  Only
`ObjectExists` errors produce a task-level failure. -/
theorem compareHashError_proceeds (cfg : UploaderConfig) (p : Provider)
    (fs : Str → Option Str) (now fuel : Nat) (task : UploadTask)
    (hash e : Str)
    (hdry : cfg.dryRun = false) (hforce : cfg.forceUpload = false)
    (hpol : cfg.conflictPolicy = "rename".data)
    (hh : fs task.localPath = some hash)
    (hex : p.objectExists task.remotePath = Except.ok true)
    (hcmp : p.compareHash task.remotePath hash = Except.error e) :
    uploadWorkerStep cfg p fs now fuel task =
      some ((uploadAt p task hash now (trimSuffix task.remotePath
          (filepathExt task.remotePath) ++ "_".data ++ natChars now ++
          filepathExt task.remotePath)).1,
        [PCall.objectExists task.remotePath,
         PCall.compareHash task.remotePath hash] ++
        (uploadAt p task hash now (trimSuffix task.remotePath
          (filepathExt task.remotePath) ++ "_".data ++ natChars now ++
          filepathExt task.remotePath)).2) :=
  uploadWorkerStep_rename cfg p fs now fuel task hash hdry hforce hpol hh
    hex (by simp [hcmp])

/-- A backend whose hash comparison always errors but whose uploads
succeed. -/
def cmpErrProvider : Provider :=
  { objectExists := fun _ => Except.ok true
    compareHash := fun _ _ => Except.error "hash check failed".data
    getPublicURL := fun q => "https://cdn/".data ++ q
    upload := fun _ rp _ => Except.ok ("https://cdn/".data ++ rp) }

/-- The result the worker actually emits in the C2 counterexample run. -/
def cmpErrResult : UploadResult :=
  { task := demoTask, url := "https://cdn/images/p1_aaaaaaaa_7.png".data,
    uploaded := true, err := none }

/-- Counterexample to C2 as stated: with the remote object present and
`CompareHash` erroring, the worker emits a *successful* result (`err=none`,
`uploaded=true`), an `Upload` call *is* made (to the renamed path), and the
failed counter stays 0. -/
theorem compareHashError_cex :
    uploadWorkerStep ⟨false, false, "rename".data⟩ cmpErrProvider demoFs 7 9
        demoTask =
      some (cmpErrResult,
        [PCall.objectExists "images/p1_aaaaaaaa.png".data,
         PCall.compareHash "images/p1_aaaaaaaa.png".data "aaaaaaaaaa".data,
         PCall.upload "p1".data "images/p1_aaaaaaaa_7.png".data]) ∧
      cmpErrResult.err = none ∧ cmpErrResult.uploaded = true ∧
      (aggregateResults demoFs [cmpErrResult]).stats.failedImages = 0 :=
  ⟨rfl, rfl, rfl, rfl⟩

/-- Witness for C2 (amended), instantiating it at the concrete erroring
backend. -/
theorem compareHashError_proceeds_witness :
    uploadWorkerStep ⟨false, false, "rename".data⟩ cmpErrProvider demoFs 7 9
        demoTask =
      some ((uploadAt cmpErrProvider demoTask "aaaaaaaaaa".data 7
          (trimSuffix demoTask.remotePath (filepathExt demoTask.remotePath)
            ++ "_".data ++ natChars 7 ++ filepathExt demoTask.remotePath)).1,
        [PCall.objectExists demoTask.remotePath,
         PCall.compareHash demoTask.remotePath "aaaaaaaaaa".data] ++
        (uploadAt cmpErrProvider demoTask "aaaaaaaaaa".data 7
          (trimSuffix demoTask.remotePath (filepathExt demoTask.remotePath)
            ++ "_".data ++ natChars 7 ++ filepathExt demoTask.remotePath)).2) :=
  compareHashError_proceeds ⟨false, false, "rename".data⟩ cmpErrProvider
    demoFs 7 9 demoTask "aaaaaaaaaa".data "hash check failed".data rfl rfl
    rfl rfl rfl rfl

/-- A backend with an occupied remote path whose content hash differs. -/
def conflictProvider : Provider :=
  { objectExists := fun _ => Except.ok true
    compareHash := fun _ _ => Except.ok false
    getPublicURL := fun q => "https://cdn/".data ++ q
    upload := fun _ rp _ => Except.ok ("https://cdn/".data ++ rp) }

/-- C8: an unspecified (empty) conflict policy defaults to `rename`, and
under `rename`, a conflicting task (remote object exists, hash differs,
`force=false`) is uploaded to the base name with a timestamp suffix
inserted before the extension — a path distinct from the originally
computed remote path. -/
theorem renameDefault_and_distinct (cfg : UploaderConfig) (p : Provider)
    (fs : Str → Option Str) (now fuel : Nat) (task : UploadTask) (hash : Str)
    (hdry : cfg.dryRun = false) (hforce : cfg.forceUpload = false)
    (hpol : cfg.conflictPolicy = "rename".data)
    (hh : fs task.localPath = some hash)
    (hex : p.objectExists task.remotePath = Except.ok true)
    (hcmp : p.compareHash task.remotePath hash = Except.ok false) :
    normalizeConflictPolicy [] = "rename".data ∧
    uploadWorkerStep cfg p fs now fuel task =
      some ((uploadAt p task hash now (trimSuffix task.remotePath
          (filepathExt task.remotePath) ++ "_".data ++ natChars now ++
          filepathExt task.remotePath)).1,
        [PCall.objectExists task.remotePath,
         PCall.compareHash task.remotePath hash] ++
        (uploadAt p task hash now (trimSuffix task.remotePath
          (filepathExt task.remotePath) ++ "_".data ++ natChars now ++
          filepathExt task.remotePath)).2) ∧
    trimSuffix task.remotePath (filepathExt task.remotePath) ++ "_".data ++
        natChars now ++ filepathExt task.remotePath ≠ task.remotePath :=
  ⟨rfl,
   uploadWorkerStep_rename cfg p fs now fuel task hash hdry hforce hpol hh
     hex (by simp [hcmp]),
   renamedPath_ne task.remotePath now⟩

/-- Witness for C8 at a concrete conflicting backend. -/
theorem renameDefault_and_distinct_witness :
    normalizeConflictPolicy [] = "rename".data ∧
    uploadWorkerStep ⟨false, false, "rename".data⟩ conflictProvider demoFs 7
        9 demoTask =
      some ((uploadAt conflictProvider demoTask "aaaaaaaaaa".data 7
          (trimSuffix demoTask.remotePath (filepathExt demoTask.remotePath)
            ++ "_".data ++ natChars 7 ++ filepathExt demoTask.remotePath)).1,
        [PCall.objectExists demoTask.remotePath,
         PCall.compareHash demoTask.remotePath "aaaaaaaaaa".data] ++
        (uploadAt conflictProvider demoTask "aaaaaaaaaa".data 7
          (trimSuffix demoTask.remotePath (filepathExt demoTask.remotePath)
            ++ "_".data ++ natChars 7 ++ filepathExt demoTask.remotePath)).2) ∧
    trimSuffix demoTask.remotePath (filepathExt demoTask.remotePath) ++
        "_".data ++ natChars 7 ++ filepathExt demoTask.remotePath ≠
      demoTask.remotePath :=
  renameDefault_and_distinct ⟨false, false, "rename".data⟩ conflictProvider
    demoFs 7 9 demoTask "aaaaaaaaaa".data rfl rfl rfl rfl rfl rfl

/-! ## C7: the `version` conflict policy -/

/-- The candidate path `base_vN` probed by the version loop, expressed in
terms of the task's original remote path. -/
def versionPath (rp : Str) (v : Nat) : Str :=
  trimSuffix rp (filepathExt rp) ++ "_v".data ++ natChars v ++ filepathExt rp

/-- With `base_v1` and `base_v2` occupied and `base_v3` free, the probe loop
stops at `base_v3`, having probed v1, v2, v3 in ascending order. -/
theorem findVersionPath_v3 (p : Provider) (base ext : Str) (fuel : Nat)
    (hfuel : 3 ≤ fuel)
    (hv1 : p.objectExists (base ++ "_v".data ++ natChars 1 ++ ext) =
      Except.ok true)
    (hv2 : p.objectExists (base ++ "_v".data ++ natChars 2 ++ ext) =
      Except.ok true)
    (hv3 : p.objectExists (base ++ "_v".data ++ natChars 3 ++ ext) =
      Except.ok false) :
    findVersionPath p base ext fuel 1 =
      some (base ++ "_v".data ++ natChars 3 ++ ext,
        [PCall.objectExists (base ++ "_v".data ++ natChars 1 ++ ext),
         PCall.objectExists (base ++ "_v".data ++ natChars 2 ++ ext),
         PCall.objectExists (base ++ "_v".data ++ natChars 3 ++ ext)]) := by
  obtain ⟨k, rfl⟩ : ∃ k, fuel = k + 1 + 1 + 1 := ⟨fuel - 3, by omega⟩
  simp at hv1 hv2 hv3
  have h3 : findVersionPath p base ext (k + 1) 3 =
      some (base ++ "_v".data ++ natChars 3 ++ ext,
        [PCall.objectExists (base ++ "_v".data ++ natChars 3 ++ ext)]) := by
    rw [findVersionPath]
    simp [hv3]
  have h2 : findVersionPath p base ext (k + 1 + 1) 2 =
      some (base ++ "_v".data ++ natChars 3 ++ ext,
        [PCall.objectExists (base ++ "_v".data ++ natChars 2 ++ ext),
         PCall.objectExists (base ++ "_v".data ++ natChars 3 ++ ext)]) := by
    rw [findVersionPath]
    simp [hv2, h3]
  rw [findVersionPath]
  simp [hv1, h2]

/-- C7: with `dryRun=false`, `force=false`, the remote object present with a
differing hash, and the `version` policy active, if `base_v1` and `base_v2`
are occupied and `base_v3` is free (and the probe has fuel), the worker
uploads to `base_v3`, probing v1, v2, v3 in ascending order. -/
theorem versionPolicy_resolves_v3 (cfg : UploaderConfig) (p : Provider)
    (fs : Str → Option Str) (now fuel : Nat) (task : UploadTask) (hash : Str)
    (hdry : cfg.dryRun = false) (hforce : cfg.forceUpload = false)
    (hpol : cfg.conflictPolicy = "version".data)
    (hh : fs task.localPath = some hash)
    (hex : p.objectExists task.remotePath = Except.ok true)
    (hcmp : p.compareHash task.remotePath hash = Except.ok false)
    (hfuel : 3 ≤ fuel)
    (hv1 : p.objectExists (versionPath task.remotePath 1) = Except.ok true)
    (hv2 : p.objectExists (versionPath task.remotePath 2) = Except.ok true)
    (hv3 : p.objectExists (versionPath task.remotePath 3) = Except.ok false) :
    uploadWorkerStep cfg p fs now fuel task =
      some ((uploadAt p task hash now (versionPath task.remotePath 3)).1,
        [PCall.objectExists task.remotePath,
         PCall.compareHash task.remotePath hash,
         PCall.objectExists (versionPath task.remotePath 1),
         PCall.objectExists (versionPath task.remotePath 2),
         PCall.objectExists (versionPath task.remotePath 3)] ++
        (uploadAt p task hash now (versionPath task.remotePath 3)).2) := by
  unfold versionPath at hv1 hv2 hv3 ⊢
  have hfv := findVersionPath_v3 p
    (trimSuffix task.remotePath (filepathExt task.remotePath))
    (filepathExt task.remotePath) fuel hfuel hv1 hv2 hv3
  simp only [uploadWorkerStep, calculateFileHash, hh, hdry, hex, hforce,
    hpol, hcmp, Bool.false_eq_true, if_false, not_false_iff, and_true,
    if_true]
  rw [hfv]
  simp

/-- A backend where `base_v1` and `base_v2` are occupied and `base_v3` (and
the original path) behave as in the C7 scenario. -/
def versionProvider : Provider :=
  { objectExists := fun q =>
      if q = "images/p1_aaaaaaaa_v3.png".data then Except.ok false
      else Except.ok true
    compareHash := fun _ _ => Except.ok false
    getPublicURL := fun q => "https://cdn/".data ++ q
    upload := fun _ rp _ => Except.ok ("https://cdn/".data ++ rp) }

/-- Witness for C7 at the concrete occupied backend. -/
theorem versionPolicy_resolves_v3_witness :
    uploadWorkerStep ⟨false, false, "version".data⟩ versionProvider demoFs 7
        9 demoTask =
      some ((uploadAt versionProvider demoTask "aaaaaaaaaa".data 7
          (versionPath demoTask.remotePath 3)).1,
        [PCall.objectExists demoTask.remotePath,
         PCall.compareHash demoTask.remotePath "aaaaaaaaaa".data,
         PCall.objectExists (versionPath demoTask.remotePath 1),
         PCall.objectExists (versionPath demoTask.remotePath 2),
         PCall.objectExists (versionPath demoTask.remotePath 3)] ++
        (uploadAt versionProvider demoTask "aaaaaaaaaa".data 7
          (versionPath demoTask.remotePath 3)).2) :=
  versionPolicy_resolves_v3 ⟨false, false, "version".data⟩ versionProvider
    demoFs 7 9 demoTask "aaaaaaaaaa".data rfl rfl rfl rfl rfl rfl
    (by omega) rfl rfl rfl

/-! ## C4, C5: the scan phase -/

/-- Path resolution for concrete runs: documents sit in the working
directory, so a relative link target is the image path itself. -/
def demoResolve : Str → Str → Str := fun _ u => u

/-- A plain configuration: no dry run, no force, default policy. -/
def demoCfg : UploaderConfig := ⟨false, false, "rename".data⟩

/-- A cache holding an entry for the (absent) image `gone.png`. -/
def missCache : Str → Option CacheItem := fun q =>
  if q = "gone.png".data then some { url := "U".data } else none

/-- A cache holding an entry for the image `p1`. -/
def hitCache : Str → Option CacheItem := fun q =>
  if q = "p1".data then some { url := "U1".data } else none

/-- The filesystem with no files at all. -/
def emptyFs : Str → Option Str := fun _ => none

/-- An initial scan state over a one-image document. -/
def scanSt0 : ScanState :=
  { newContent := "![a](gone.png)".data, contentChanged := false,
    pending := [], tasks := [], skipped := 0 }

/-- An initial scan state over a two-image document. -/
def scanSt1 : ScanState :=
  { newContent := "![a](p1)![b](p2)".data, contentChanged := false,
    pending := [], tasks := [], skipped := 0 }

/-- Counterexample to C4 as stated: a reference whose resolved path has a
cache entry (`force=false`) but whose file no longer exists on disk is
skipped by the missing-file check *before* the cache lookup — the skipped
counter is not incremented and the link is not rewritten (the state is
returned unchanged). -/
theorem cacheHit_missing_file_cex :
    missCache (demoResolve "d.md".data "gone.png".data) =
      some { url := "U".data } ∧
    demoCfg.forceUpload = false ∧
    scanStep demoCfg demoResolve emptyFs missCache "d.md".data scanSt0
      ⟨"a".data, "gone.png".data⟩ = scanSt0 :=
  ⟨rfl, rfl, rfl⟩

/-- C4 (amended): for a local reference whose resolved path *exists on
disk* (hashable) and has a cache entry, with `force=false`, processing
short-circuits: no task is enqueued, no pending replacement is registered
(so no provider call can originate from it), the skipped counter is
incremented, and the document link is rewritten to the cached URL exactly
when it differs from the current link. -/
theorem cacheHit_short_circuits (cfg : UploaderConfig)
    (resolve : Str → Str → Str) (fs : Str → Option Str)
    (cache : Str → Option CacheItem) (f : Str) (st : ScanState)
    (m : ImgMatch) (item : CacheItem) (hash : Str)
    (hrem : isRemoteURL m.url = false)
    (hforce : cfg.forceUpload = false)
    (hfs : fs (resolve f m.url) = some hash)
    (hcache : cache (resolve f m.url) = some item) :
    (scanStep cfg resolve fs cache f st m).tasks = st.tasks ∧
    (scanStep cfg resolve fs cache f st m).pending = st.pending ∧
    (scanStep cfg resolve fs cache f st m).skipped = st.skipped + 1 ∧
    (scanStep cfg resolve fs cache f st m).newContent =
      (if mkLink m.alt m.url = mkLink m.alt item.url then st.newContent
       else replaceFirst st.newContent (mkLink m.alt m.url)
         (mkLink m.alt item.url)) := by
  by_cases hEq : mkLink m.alt m.url = mkLink m.alt item.url <;>
    simp [scanStep, hrem, hfs, hforce, hcache, hEq]

/-- Witness for C4 (amended): a concrete cache hit counts one skip and
enqueues nothing. -/
theorem cacheHit_short_circuits_witness :
    (scanStep demoCfg demoResolve demoFs hitCache "d.md".data scanSt1
        ⟨"a".data, "p1".data⟩).tasks = scanSt1.tasks ∧
    (scanStep demoCfg demoResolve demoFs hitCache "d.md".data scanSt1
        ⟨"a".data, "p1".data⟩).skipped = scanSt1.skipped + 1 :=
  ⟨(cacheHit_short_circuits demoCfg demoResolve demoFs hitCache "d.md".data
      scanSt1 ⟨"a".data, "p1".data⟩ { url := "U1".data } "aaaaaaaaaa".data
      rfl rfl rfl rfl).1,
   (cacheHit_short_circuits demoCfg demoResolve demoFs hitCache "d.md".data
      scanSt1 ⟨"a".data, "p1".data⟩ { url := "U1".data } "aaaaaaaaaa".data
      rfl rfl rfl rfl).2.2.1⟩

/-- C5: per-reference case analysis of the scan loop: (already-remote →
untouched, no task), (missing file → untouched, no task, not fatal — the
step is total and the scan continues), (existing file, no trusted cache
entry → exactly one task appended, built from the cleaned filename, hash
prefix and extension), (existing file, cache hit with `force=false` → no
task). -/
theorem scanStep_reference_cases (cfg : UploaderConfig)
    (resolve : Str → Str → Str) (fs : Str → Option Str)
    (cache : Str → Option CacheItem) (f : Str) (st : ScanState)
    (m : ImgMatch) :
    (isRemoteURL m.url = true → scanStep cfg resolve fs cache f st m = st) ∧
    (isRemoteURL m.url = false → fs (resolve f m.url) = none →
      scanStep cfg resolve fs cache f st m = st) ∧
    (∀ hash, isRemoteURL m.url = false → fs (resolve f m.url) = some hash →
      cfg.forceUpload = true ∨ cache (resolve f m.url) = none →
      (scanStep cfg resolve fs cache f st m).tasks = st.tasks ++
        [{ localPath := resolve f m.url,
           remotePath := "images/".data ++
               cleanFileName (trimSuffix (filepathBase (resolve f m.url))
                 (filepathExt (resolve f m.url))) ++ "_".data ++
               hash.take 8 ++ filepathExt (resolve f m.url),
           filename := filepathBase (resolve f m.url) }]) ∧
    (∀ hash item, isRemoteURL m.url = false →
      fs (resolve f m.url) = some hash → cfg.forceUpload = false →
      cache (resolve f m.url) = some item →
      (scanStep cfg resolve fs cache f st m).tasks = st.tasks) := by
  refine ⟨?_, ?_, ?_, ?_⟩
  · intro h
    simp [scanStep, h]
  · intro h1 h2
    simp [scanStep, h1, h2]
  · intro hash h1 h2 h3
    rcases h3 with h3 | h3
    · simp [scanStep, h1, h2, h3]
    · by_cases hf : cfg.forceUpload <;> simp [scanStep, h1, h2, h3, hf]
  · intro hash item h1 h2 h3 h4
    by_cases hEq : mkLink m.alt m.url = mkLink m.alt item.url <;>
      simp [scanStep, h1, h2, h3, h4, hEq]

/-- Witness for C5: the three non-cache cases at concrete references — a
remote link, a missing file, and a fresh local file producing exactly one
task — plus the cache-hit bypass. -/
theorem scanStep_reference_cases_witness :
    scanStep demoCfg demoResolve demoFs hitCache "d.md".data scanSt1
      ⟨"a".data, "http://x/y.png".data⟩ = scanSt1 ∧
    scanStep demoCfg demoResolve demoFs hitCache "d.md".data scanSt1
      ⟨"a".data, "gone.png".data⟩ = scanSt1 ∧
    (scanStep demoCfg demoResolve demoFs hitCache "d.md".data scanSt1
        ⟨"b".data, "p2".data⟩).tasks = scanSt1.tasks ++
      [{ localPath := "p2".data, remotePath := "images/p2_bbbbbbbb".data,
         filename := "p2".data }] ∧
    (scanStep demoCfg demoResolve demoFs hitCache "d.md".data scanSt1
        ⟨"a".data, "p1".data⟩).tasks = scanSt1.tasks :=
  ⟨(scanStep_reference_cases demoCfg demoResolve demoFs hitCache "d.md".data
      scanSt1 ⟨"a".data, "http://x/y.png".data⟩).1 rfl,
   (scanStep_reference_cases demoCfg demoResolve demoFs hitCache "d.md".data
      scanSt1 ⟨"a".data, "gone.png".data⟩).2.1 rfl rfl,
   (scanStep_reference_cases demoCfg demoResolve demoFs hitCache "d.md".data
      scanSt1 ⟨"b".data, "p2".data⟩).2.2.1 "bbbbbbbbbb".data rfl rfl
     (Or.inr rfl),
   (scanStep_reference_cases demoCfg demoResolve demoFs hitCache "d.md".data
      scanSt1 ⟨"a".data, "p1".data⟩).2.2.2 "aaaaaaaaaa".data
     { url := "U1".data } rfl rfl rfl rfl⟩

/-! ## C6: partial-failure rewrite -/

/-- Every write performed by the rewrite loop is of a document that was
read back successfully and whose substituted content registered a change
(the `contentChanged` flag), and writes only happen outside dry runs. -/
theorem rewritePhase_writes_changed (dr : Bool)
    (writeErr docFS : Str → Option Str) (urls : List (Str × Str))
    (pfs : List (Str × List PendingReplace)) (path c : Str)
    (h : (path, c) ∈ (rewritePhase dr writeErr docFS urls pfs).1) :
    dr = false ∧ ∃ orig rs, (path, rs) ∈ pfs ∧ docFS path = some orig ∧
      c = (applyReplaces urls orig rs).1 ∧
      (applyReplaces urls orig rs).2 = true := by
  induction pfs with
  | nil => simp [rewritePhase] at h
  | cons hd rest ih =>
    obtain ⟨q, rs⟩ := hd
    by_cases hrs : rs = []
    · rw [rewritePhase, if_pos hrs] at h
      obtain ⟨hdr, orig, rs', hmem, hrest⟩ := ih h
      exact ⟨hdr, orig, rs', List.mem_cons_of_mem _ hmem, hrest⟩
    · rw [rewritePhase, if_neg hrs] at h
      cases hq : docFS q with
      | none =>
        rw [hq] at h
        obtain ⟨hdr, orig, rs', hmem, hrest⟩ := ih h
        exact ⟨hdr, orig, rs', List.mem_cons_of_mem _ hmem, hrest⟩
      | some content =>
        rw [hq] at h
        dsimp only at h
        by_cases hcnd : (applyReplaces urls content rs).2 = true ∧
            ¬dr = true
        · rw [if_pos hcnd] at h
          cases hwq : writeErr q with
          | some e =>
            rw [hwq] at h
            obtain ⟨hdr, orig, rs', hmem, hrest⟩ := ih h
            exact ⟨hdr, orig, rs', List.mem_cons_of_mem _ hmem, hrest⟩
          | none =>
            rw [hwq] at h
            rcases List.mem_cons.mp h with h | h
            · have hpc : path = q ∧ c = (applyReplaces urls content rs).1 :=
                by simpa using h
              obtain ⟨hpq, hcv⟩ := hpc
              subst hpq
              exact ⟨by simpa using hcnd.2, content, rs,
                List.mem_cons_self _ _, hq, hcv, hcnd.1⟩
            · obtain ⟨hdr, orig, rs', hmem, hrest⟩ := ih h
              exact ⟨hdr, orig, rs', List.mem_cons_of_mem _ hmem, hrest⟩
        · rw [if_neg hcnd] at h
          obtain ⟨hdr, orig, rs', hmem, hrest⟩ := ih h
          exact ⟨hdr, orig, rs', List.mem_cons_of_mem _ hmem, hrest⟩

/-- C6: for a document with two pending replacements of which the first has
a resolved URL (its upload succeeded) and the second has none (its upload
failed), the substitution pass replaces only the first link (the failed
reference's link text stays in place untouched by any substitution); the
document is written, and `ChangedFiles` incremented, exactly when that one
substitution changed the content; and in general the rewrite loop writes a
document only when a substitution changed its content (never in dry runs). -/
theorem rewrite_partial_failure (urls : List (Str × Str)) (content u1 : Str)
    (r1 r2 : PendingReplace) (f : Str) (docFS writeErr : Str → Option Str)
    (h1 : lookupAssoc urls r1.localPath = some u1)
    (h2 : lookupAssoc urls r2.localPath = none)
    (hdoc : docFS f = some content)
    (hw : writeErr f = none) :
    applyReplaces urls content [r1, r2] =
      (replaceFirst content r1.oldLink (mkLink r1.imgAlt u1),
        if replaceFirst content r1.oldLink (mkLink r1.imgAlt u1) = content
        then false else true) ∧
    rewritePhase false writeErr docFS urls [(f, [r1, r2])] =
      (if replaceFirst content r1.oldLink (mkLink r1.imgAlt u1) = content
       then ([], 0)
       else ([(f, replaceFirst content r1.oldLink (mkLink r1.imgAlt u1))],
         1)) ∧
    (∀ dr we dfs us pfs path c,
      (path, c) ∈ (rewritePhase dr we dfs us pfs).1 →
      dr = false ∧ ∃ orig rs, (path, rs) ∈ pfs ∧ dfs path = some orig ∧
        c = (applyReplaces us orig rs).1 ∧
        (applyReplaces us orig rs).2 = true) := by
  have e1 : applyReplaces urls content [r1, r2] =
      (replaceFirst content r1.oldLink (mkLink r1.imgAlt u1),
        if replaceFirst content r1.oldLink (mkLink r1.imgAlt u1) = content
        then false else true) := by
    simp only [applyReplaces, List.foldl_cons, List.foldl_nil, h1, h2]
    split <;> simp_all
  refine ⟨e1, ?_, fun dr we dfs us pfs path c h =>
    rewritePhase_writes_changed dr we dfs us pfs path c h⟩
  by_cases hR : replaceFirst content r1.oldLink (mkLink r1.imgAlt u1) =
      content <;>
    simp [rewritePhase, hdoc, e1, hw, hR]

/-- The resolved-URL map of a run where `one.png` uploaded and `two.png`
failed. -/
def urls6 : List (Str × Str) := [("one.png".data, "U1".data)]

/-- Pending replacement for the successful image. -/
def r61 : PendingReplace :=
  { localPath := "one.png".data, oldLink := "![a](one.png)".data,
    imgAlt := "a".data, remotePath := "images/one.png".data }

/-- Pending replacement for the failed image. -/
def r62 : PendingReplace :=
  { localPath := "two.png".data, oldLink := "![b](two.png)".data,
    imgAlt := "b".data, remotePath := "images/two.png".data }

/-- The two-image document on disk at rewrite time. -/
def docFS6 : Str → Option Str := fun q =>
  if q = "d.md".data then some "![a](one.png)![b](two.png)".data else none

/-- Witness for C6: with one success and one failure, exactly the
successful link is substituted, the failed link survives byte-for-byte, and
`ChangedFiles` is incremented by exactly 1. -/
theorem rewrite_partial_failure_witness :
    rewritePhase false (fun _ => none) docFS6 urls6
        [("d.md".data, [r61, r62])] =
      ([("d.md".data, "![a](U1)![b](two.png)".data)], 1) := by
  have h := (rewrite_partial_failure urls6
    "![a](one.png)![b](two.png)".data "U1".data r61 r62 "d.md".data docFS6
    (fun _ => none) rfl rfl rfl rfl).2.1
  rw [h, if_neg (by decide)]
  rfl

/-! ## C1: how often a document is written in one run -/

/-- A cache that already knows `p1` under the URL `U1`. -/
def runCache : Str → Option CacheItem := fun q =>
  if q = "p1".data then
    some { localPath := "p1".data, remotePath := "images/old".data,
           url := "U1".data, hash := "aaaaaaaaaa".data }
  else none

/-- A single document referencing the cached image `p1` and the fresh image
`p2`. -/
def runDocs : List (Str × Str × List ImgMatch) :=
  [("d.md".data, "![a](p1)![b](p2)".data,
    [⟨"a".data, "p1".data⟩, ⟨"b".data, "p2".data⟩])]

/-- Counterexample to C1 as stated: a document mixing a cache-hit image
(cached URL differing from the link) with a fresh image is written twice in
a single run — once by the scan phase's cache-hit substitution (performed
while the fresh image's upload task is still unresolved) and once by the
rewrite phase. -/
theorem document_written_twice_cex :
    writeCount (runModel demoCfg demoResolve demoFs runCache demoProvider 5
      9 (fun _ => none) runDocs) "d.md".data = 2 := rfl

theorem count_path_le_one (l : List Str) (h : l.Nodup) (path : Str) :
    l.count path ≤ 1 := by
  induction l with
  | nil => simp
  | cons x l ih =>
    rw [List.count_cons]
    rcases List.nodup_cons.mp h with ⟨hx, hl⟩
    by_cases hxa : x = path
    · subst hxa
      have h0 : l.count x = 0 := List.count_eq_zero.mpr hx
      simp [h0]
    · have hle := ih hl
      simp only [beq_iff_eq, if_neg hxa]
      omega

theorem filterMap_fst_sublist {α β γ : Type} (f : α × β → Option (α × γ))
    (hf : ∀ x y, f x = some y → y.1 = x.1) :
    ∀ l : List (α × β),
      ((l.filterMap f).map Prod.fst).Sublist (l.map Prod.fst)
  | [] => List.Sublist.refl _
  | x :: l => by
    rw [List.filterMap_cons]
    cases hx : f x with
    | none =>
      exact List.Sublist.cons _ (filterMap_fst_sublist f hf l)
    | some y =>
      rw [List.map_cons, List.map_cons, hf x y hx]
      exact List.Sublist.cons₂ _ (filterMap_fst_sublist f hf l)

theorem rewritePhase_fst_sublist (dr : Bool) (we dfs : Str → Option Str)
    (urls : List (Str × Str)) :
    ∀ pfs : List (Str × List PendingReplace),
      (((rewritePhase dr we dfs urls pfs).1).map Prod.fst).Sublist
        (pfs.map Prod.fst)
  | [] => by simp [rewritePhase]
  | (q, rs) :: rest => by
    rw [rewritePhase]
    by_cases hrs : rs = []
    · rw [if_pos hrs]
      exact List.Sublist.cons _
        (rewritePhase_fst_sublist dr we dfs urls rest)
    · rw [if_neg hrs]
      cases hq : dfs q with
      | none =>
        exact List.Sublist.cons _
          (rewritePhase_fst_sublist dr we dfs urls rest)
      | some content =>
        dsimp only
        by_cases hcnd : (applyReplaces urls content rs).2 = true ∧
            ¬dr = true
        · rw [if_pos hcnd]
          cases hwq : we q with
          | some e =>
            exact List.Sublist.cons _
              (rewritePhase_fst_sublist dr we dfs urls rest)
          | none =>
            simp only [List.map_cons]
            exact List.Sublist.cons₂ _
              (rewritePhase_fst_sublist dr we dfs urls rest)
        · rw [if_neg hcnd]
          exact List.Sublist.cons _
            (rewritePhase_fst_sublist dr we dfs urls rest)

/-- C1 (amended): over distinct document paths, a run writes each document
at most twice: at most once in the scan phase (the cache-hit substitution
write of `processFile`, which can happen while that document's upload
tasks are still unresolved) and at most once in the rewrite phase, which
runs only after every task has produced a result. -/
theorem writeCount_le_two (cfg : UploaderConfig) (resolve : Str → Str → Str)
    (fs : Str → Option Str) (cache : Str → Option CacheItem) (p : Provider)
    (now fuel : Nat) (writeErr : Str → Option Str)
    (docs : List (Str × Str × List ImgMatch)) (path : Str)
    (hnodup : (docs.map (fun d => d.1)).Nodup) :
    writeCount (runModel cfg resolve fs cache p now fuel writeErr docs)
      path ≤ 2 := by
  have hcount := count_path_le_one (docs.map (fun d => d.1)) hnodup path
  simp only [runModel, writeCount]
  split
  · omega
  · rename_i out hout
    split at hout
    · exact absurd hout (by simp)
    · rename_i pairs hpairs
      cases hout
      dsimp only
      have hsw := (filterMap_fst_sublist
        (fun s : Str × ScanState =>
          if s.2.contentChanged ∧ ¬cfg.dryRun ∧ writeErr s.1 = none
          then some (s.1, s.2.newContent) else none)
        (by
          intro x y hxy
          dsimp only at hxy
          split at hxy
          · cases hxy
            rfl
          · exact Option.noConfusion hxy)
        (docs.map (fun d =>
          (d.1, processFileModel cfg resolve fs cache d.1 d.2.1
            d.2.2)))).count_le path
      have hrw := (rewritePhase_fst_sublist cfg.dryRun writeErr
        (fun q =>
          match lookupAssoc ((docs.map (fun d =>
            (d.1, processFileModel cfg resolve fs cache d.1 d.2.1
              d.2.2))).filterMap (fun s =>
            if s.2.contentChanged ∧ ¬cfg.dryRun ∧ writeErr s.1 = none
            then some (s.1, s.2.newContent) else none)) q with
          | some c => some c
          | none => lookupAssoc (docs.map (fun d => (d.1, d.2.1))) q)
        (aggregateResults fs (pairs.map (fun pr => pr.1))).uploadedURLs
        ((docs.map (fun d =>
          (d.1, processFileModel cfg resolve fs cache d.1 d.2.1
            d.2.2))).map (fun s => (s.1, s.2.pending)))).count_le path
      have e1 : ((docs.map (fun d =>
          (d.1, processFileModel cfg resolve fs cache d.1 d.2.1
            d.2.2))).map Prod.fst) = docs.map (fun d => d.1) := by
        simp
      have e2 : (((docs.map (fun d =>
          (d.1, processFileModel cfg resolve fs cache d.1 d.2.1
            d.2.2))).map (fun s => (s.1, s.2.pending))).map Prod.fst) =
          docs.map (fun d => d.1) := by
        simp
      rw [e1] at hsw
      rw [e2] at hrw
      omega

/-- Witness for C1 (amended), at the concrete double-write run. -/
theorem writeCount_le_two_witness :
    writeCount (runModel demoCfg demoResolve demoFs runCache demoProvider 5
      9 (fun _ => none) runDocs) "d.md".data ≤ 2 :=
  writeCount_le_two demoCfg demoResolve demoFs runCache demoProvider 5 9
    (fun _ => none) runDocs "d.md".data (by decide)

end Mdctl
